import Mathlib

/-!
Verification of `assets/payment-button-translator.js` (final variant).

The script is a self-invoking DOM-patching utility.  We shallowly embed the
DOM fragment it manipulates and every function of the script:

* the DOM is a `Doc`: a list of elements in document order plus a parent map,
  each element carrying its identity, node type, tag, class list, present
  attributes and text content;
* selectors used by the script are embedded as `Selector` values with the
  matching semantics of `Element.matches`;
* the WeakSet collections (`processedButtons`, `observedForms`) become lists
  of element identities with insert-if-absent (`WeakSet.add` is a no-op on a
  member);
* timers and MutationObserver deliveries become explicit step functions
  (`initWithRetryStep` / `retryTrace` for the 500ms retry loop,
  `handleMutations` / `fireDebounce` for the debounce machinery).

Two JavaScript runtime facts the embedding must encode faithfully:

* `NodeList.forEach(translateButton)` invokes the callback with
  `(element, index, list)`, so the numeric index is bound to the
  `forceUpdate` parameter; the default value `false` is only used when the
  argument is `undefined`, hence `forceUpdate` is the truthiness of the
  index: falsy at index 0 and truthy at every later index.  `idxFlags`
  records this.
* `Node.textContent` is a nullable DOMString (WebIDL), so assigning the
  ECMAScript value `undefined` converts it to `null`, which the setter
  treats as the empty string.  `textContentSet` records this.
-/

namespace PBT

/-- One DOM element: identity (object identity of the node), nodeType,
tag name, class list, present boolean attributes, and text content. -/
structure Elem where
  id : Nat
  nodeType : Nat
  tag : String
  classes : List String
  attrs : List String
  text : String
deriving Repr, DecidableEq

/-- The document: elements in document order together with the parent map
(child id, parent id). -/
structure Doc where
  elems : List Elem
  parents : List (Nat × Nat)
deriving Repr, DecidableEq

/-- The selector forms actually used by the script: a class selector,
a tag selector, tag-with-class, and tag-with-present-attribute. -/
inductive Selector where
  | cls (c : String)
  | tagName (t : String)
  | tagClass (t c : String)
  | tagAttr (t a : String)
deriving Repr, DecidableEq

/-- `Element.matches` for the selector forms above. -/
def Selector.matchesElem : Selector → Elem → Bool
  | .cls c, e => e.classes.contains c
  | .tagName t, e => e.tag == t
  | .tagClass t c, e => e.tag == t && e.classes.contains c
  | .tagAttr t a, e => e.tag == t && e.attrs.contains a

/-- BUTTON_SELECTOR = '.shopify-payment-button__button--unbranded'. -/
def buttonSelector : Selector := .cls "shopify-payment-button__button--unbranded"

/-- Selector 'product-form'. -/
def selProductForm : Selector := .tagName "product-form"

/-- Selector 'form.product__form'. -/
def selFormProductClass : Selector := .tagClass "form" "product__form"

/-- Selector 'form[data-is-preorder]'. -/
def selFormPreorder : Selector := .tagAttr "form" "data-is-preorder"

/-- Selector 'product-form[data-is-preorder]'. -/
def selProductFormPreorder : Selector := .tagAttr "product-form" "data-is-preorder"

/-- DEBOUNCE_DELAY = 100 (milliseconds). -/
def DEBOUNCE_DELAY : Nat := 100

/-- MAX_RETRIES = 3. -/
def MAX_RETRIES : Nat := 3

/-- Look an element up by its identity (a node reference in JS). -/
def Doc.getById (d : Doc) (i : Nat) : Option Elem :=
  d.elems.find? (fun e => e.id == i)

/-- The parent of a node, if any. -/
def Doc.parentOf (d : Doc) (i : Nat) : Option Nat :=
  (d.parents.find? (fun pr => pr.1 == i)).map Prod.snd

/-- Walk the ancestor-or-self chain looking for the first node matching the
selector; fuel bounds the walk (a real DOM tree is acyclic, so fuel
`elems.length + 1` always suffices). -/
def closestAux (d : Doc) (s : Selector) : Nat → Nat → Option Nat
  | 0, _ => none
  | fuel + 1, i =>
    match d.getById i with
    | none => none
    | some e =>
      if s.matchesElem e then some i
      else
        match d.parentOf i with
        | none => none
        | some p => closestAux d s fuel p

/-- `Element.closest(sel)`: nearest ancestor-or-self matching the selector. -/
def Doc.closest (d : Doc) (s : Selector) (i : Nat) : Option Nat :=
  closestAux d s (d.elems.length + 1) i

/-- `document.querySelectorAll(sel)` as the list of matching ids in document
order (the NodeList is a static snapshot). -/
def Doc.queryAll (d : Doc) (s : Selector) : List Nat :=
  (d.elems.filter (fun e => s.matchesElem e)).map Elem.id

/-- `document.querySelector(sel)`: first match in document order. -/
def Doc.queryFirst (d : Doc) (s : Selector) : Option Nat :=
  (d.elems.find? (fun e => s.matchesElem e)).map Elem.id

/-- Matching against a comma-separated selector list. -/
def matchesAny (ss : List Selector) (e : Elem) : Bool :=
  ss.any (fun s => s.matchesElem e)

/-- `document.querySelectorAll` for a comma-separated selector list. -/
def Doc.queryAllAny (d : Doc) (ss : List Selector) : List Nat :=
  (d.elems.filter (fun e => matchesAny ss e)).map Elem.id

/-- Strict-descendant test via the parent map (fuel-bounded walk). -/
def descAux (d : Doc) (n : Nat) : Nat → Nat → Bool
  | 0, _ => false
  | fuel + 1, j =>
    match d.parentOf j with
    | none => false
    | some p => p == n || descAux d n fuel p

/-- Whether `m` is a strict descendant of `n`. -/
def Doc.isDescendantOf (d : Doc) (m n : Nat) : Bool :=
  descAux d n (d.elems.length + 1) m

/-- `node.querySelectorAll(sel)`: matching strict descendants of `n`,
in document order. -/
def Doc.queryAllFrom (d : Doc) (n : Nat) (s : Selector) : List Nat :=
  (d.elems.filter (fun e => s.matchesElem e && d.isDescendantOf e.id n)).map Elem.id

/-- `node.querySelectorAll(commaList)` for a selector list. -/
def Doc.queryAllFromAny (d : Doc) (n : Nat) (ss : List Selector) : List Nat :=
  (d.elems.filter (fun e => matchesAny ss e && d.isDescendantOf e.id n)).map Elem.id

/-- The global `window.paymentButtonStrings` record; both properties can be
absent (`none` models the JS value `undefined`). -/
structure PaymentButtonStrings where
  buttonText : Option String
  preorderButtonText : Option String
deriving Repr, DecidableEq

/-- The configuration captured by the script after the guard passes:
`translatedText` (a present string) and `preorderText` (possibly
`undefined`). -/
structure Cfg where
  translatedText : String
  preorderText : Option String
deriving Repr, DecidableEq

/-- DOM `textContent` setter conversion.  `textContent` is a nullable
DOMString in WebIDL, so the ECMAScript value `undefined` converts to `null`,
and the setter treats `null` as the empty string. -/
def textContentSet : Option String → String
  | none => ""
  | some s => s

/-- Write the text content of the node with identity `i`. -/
def updText (i : Nat) (t : String) (e : Elem) : Elem :=
  if e.id == i then { e with text := t } else e

/-- `node.textContent = t` on the node with identity `i`. -/
def Doc.setText (d : Doc) (i : Nat) (t : String) : Doc :=
  { d with elems := d.elems.map (updText i t) }

/-- Component state: the two WeakSets of the script, as lists of element
identities. -/
structure CState where
  processedButtons : List Nat
  observedForms : List Nat
deriving Repr, DecidableEq

/-- `WeakSet.add`: a no-op when the member is already present. -/
def procAdd (b : Nat) (l : List Nat) : List Nat :=
  if l.contains b then l else b :: l

/-- Lines 37-41: the productForm lookup chain of `translateButton` —
`button.closest('product-form') || button.closest('form.product__form') ||
button.closest('form[data-is-preorder]') ||
document.querySelector('product-form[data-is-preorder]')`. -/
def productFormOf (d : Doc) (b : Nat) : Option Nat :=
  match d.closest selProductForm b with
  | some pf => some pf
  | none =>
    match d.closest selFormProductClass b with
    | some pf => some pf
    | none =>
      match d.closest selFormPreorder b with
      | some pf => some pf
      | none => d.queryFirst selProductFormPreorder

/-- `el.hasAttribute(a)` on the node with identity `j`. -/
def hasAttributeAt (d : Doc) (j : Nat) (a : String) : Bool :=
  match d.getById j with
  | some e => e.attrs.contains a
  | none => false

/-- Line 41: `const isPreorder = productForm?.hasAttribute('data-is-preorder')`
(the optional chain yields `undefined`, i.e. falsy, when the lookup found
nothing). -/
def isPreorderFor (d : Doc) (b : Nat) : Bool :=
  match productFormOf d b with
  | some pf => hasAttributeAt d pf "data-is-preorder"
  | none => false

/-- Lines 29-46: `translateButton(button, forceUpdate = false)`.  The
`none` case of the lookup is a model artifact: node references in mutation
records are assumed to be present in the document. -/
def translateButton (cfg : Cfg) (d : Doc) (st : CState) (b : Nat)
    (forceUpdate : Bool) : Doc × CState :=
  if !forceUpdate && st.processedButtons.contains b then (d, st)
  else
    match d.getById b with
    | none => (d, st)
    | some e =>
      if !(buttonSelector.matchesElem e) then (d, st)
      else
        let isPreorder := isPreorderFor d b
        (d.setText b (if isPreorder then textContentSet cfg.preorderText
                      else cfg.translatedText),
         { st with processedButtons := procAdd b st.processedButtons })

/-- Fold `translateButton` over a list of (button id, forceUpdate) pairs. -/
def foldTranslate (cfg : Cfg) (ps : List (Nat × Bool)) (p : Doc × CState) :
    Doc × CState :=
  ps.foldl (fun q pr => translateButton cfg q.1 q.2 pr.1 pr.2) p

/-- `forEach(translateButton)` flag pattern: the callback receives
`(element, index, list)`, so `forceUpdate` is the truthiness of the index —
falsy at index 0 and truthy at every later index. -/
def idxFlags : Nat → List Nat → List (Nat × Bool)
  | _, [] => []
  | i, b :: bs => (b, i != 0) :: idxFlags (i + 1) bs

/-- Lines 79-81: `init()` — the sweep.
`document.querySelectorAll(BUTTON_SELECTOR).forEach(translateButton)`. -/
def init (cfg : Cfg) (d : Doc) (st : CState) : Doc × CState :=
  foldTranslate cfg (idxFlags 0 (d.queryAll buttonSelector)) (d, st)

/-- Lines 98-115: `observeFormAttributes(form)` — skip if already observed,
otherwise install an attribute observer and record the form.  Installing
the observer is modelled by the form's membership in `observedForms`. -/
def observeFormAttributes (st : CState) (f : Nat) : CState :=
  if st.observedForms.contains f then st
  else { st with observedForms := f :: st.observedForms }

/-- Lines 102-107: the attribute-observer callback — on a change of the
`data-is-preorder` attribute, force re-translation of every payment button
in the document:
`document.querySelectorAll(BUTTON_SELECTOR).forEach(b => translateButton(b, true))`. -/
def onFormAttributeChange (cfg : Cfg) (d : Doc) (st : CState) : Doc × CState :=
  foldTranslate cfg ((d.queryAll buttonSelector).map (fun b => (b, true))) (d, st)

/-- Lines 120-124: `setupAttributeObserver()` — observe every
`product-form, form[data-is-preorder], form.product__form` element. -/
def setupAttributeObserver (d : Doc) (st : CState) : CState :=
  (d.queryAllAny [selProductForm, selFormPreorder, selFormProductClass]).foldl
    observeFormAttributes st

/-- One mutation record as consumed by the script (only `addedNodes` is
read). -/
structure MutationRecord where
  addedNodes : List Nat
deriving Repr, DecidableEq

/-- Lines 55-71, body of the debounce-timer callback, for one added node:
process element nodes only; translate the node itself when it matches;
translate matching descendants (again via `forEach(translateButton)`, index
in the `forceUpdate` slot); and observe newly added form-like descendants. -/
def processAddedNode (cfg : Cfg) (p : Doc × CState) (n : Nat) : Doc × CState :=
  match p.1.getById n with
  | none => p
  | some e =>
    if e.nodeType == 1 then
      let p1 := if buttonSelector.matchesElem e
                then translateButton cfg p.1 p.2 n false else p
      let p2 := foldTranslate cfg (idxFlags 0 (p1.1.queryAllFrom n buttonSelector)) p1
      (p2.1,
       (p2.1.queryAllFromAny n [selProductForm, selFormProductClass]).foldl
         observeFormAttributes p2.2)
    else p

/-- The whole debounce-timer callback body: iterate the captured mutation
records and their added nodes. -/
def processMutations (cfg : Cfg) (d : Doc) (st : CState)
    (muts : List MutationRecord) : Doc × CState :=
  muts.foldl (fun p m => m.addedNodes.foldl (processAddedNode cfg) p) (d, st)

/-- Lines 52-74: `handleMutations(mutations)` — `clearTimeout` discards any
pending timer (and with it the batch captured by its closure), and
`setTimeout` schedules processing of the new batch only.  The pending timer
is modelled as the batch its closure captured. -/
def handleMutations (_pending : Option (List MutationRecord))
    (muts : List MutationRecord) : Option (List MutationRecord) :=
  some muts

/-- The debounce timer fires: process the captured batch, clearing the
pending slot.  A fire with no pending timer is a no-op. -/
def fireDebounce (cfg : Cfg) (d : Doc) (st : CState)
    (pending : Option (List MutationRecord)) :
    Doc × CState × Option (List MutationRecord) :=
  match pending with
  | none => (d, st, none)
  | some muts =>
    let p := processMutations cfg d st muts
    (p.1, p.2, none)

/-- Bookkeeping for the retry loop of `initWithRetry`. -/
structure RetrySt where
  retryCount : Nat
  sweepCount : Nat
  installCount : Nat
  pendingTimer : Bool
deriving Repr, DecidableEq

/-- Lines 130-142: one invocation of `initWithRetry()` — run the sweep; if
no button was found and retries remain, increment the counter and schedule
another invocation (pendingTimer); otherwise install the persistent
observers (`setupObserver(); setupAttributeObserver()`), counted by
`installCount`. -/
def initWithRetryStep (cfg : Cfg) (d : Doc) (st : CState) (r : RetrySt) :
    Doc × CState × RetrySt :=
  let p := init cfg d st
  let buttonsFound := (p.1.queryAll buttonSelector).length
  if buttonsFound = 0 ∧ r.retryCount < MAX_RETRIES then
    (p.1, p.2,
     { retryCount := r.retryCount + 1, sweepCount := r.sweepCount + 1,
       installCount := r.installCount, pendingTimer := true })
  else
    (p.1, setupAttributeObserver p.1 p.2,
     { retryCount := r.retryCount, sweepCount := r.sweepCount + 1,
       installCount := r.installCount + 1, pendingTimer := false })

/-- The retry loop driven by the timer: index 0 is the initial invocation
(DOM ready); each later index fires the pending 500ms timer if one exists,
and is a no-op otherwise.  The document is held fixed, which is exactly the
zero-buttons-throughout scenario of the retry-bound claim. -/
def retryTrace (cfg : Cfg) (d : Doc) (st : CState) : Nat → Doc × CState × RetrySt
  | 0 => initWithRetryStep cfg d st ⟨0, 0, 0, false⟩
  | k + 1 =>
    if (retryTrace cfg d st k).2.2.pendingTimer then
      initWithRetryStep cfg (retryTrace cfg d st k).1
        (retryTrace cfg d st k).2.1 (retryTrace cfg d st k).2.2
    else retryTrace cfg d st k

/-- Outcome of running the whole script once (plus `k` timer firings of the
retry loop). -/
structure ScriptOutcome where
  warned : Bool
  doc : Doc
  cstate : CState
  retry : RetrySt
deriving Repr, DecidableEq

/-- The early-exit outcome: a warning is logged and nothing else happens. -/
def scriptAbort (d : Doc) : ScriptOutcome :=
  ⟨true, d, ⟨[], []⟩, ⟨0, 0, 0, false⟩⟩

/-- Lines 14-18 and 145-149: the guard
`if (!window.paymentButtonStrings?.buttonText) { warn; return; }` — the
falsy cases are: the table absent, `buttonText` absent, `buttonText` empty —
followed by `initWithRetry` with `k` timer firings. -/
def runScript (w : Option PaymentButtonStrings) (d : Doc) (k : Nat) :
    ScriptOutcome :=
  match w with
  | none => scriptAbort d
  | some strs =>
    match strs.buttonText with
    | none => scriptAbort d
    | some bt =>
      if bt = "" then scriptAbort d
      else
        let r := retryTrace ⟨bt, strs.preorderButtonText⟩ d ⟨[], []⟩ k
        ⟨false, r.1, r.2.1, r.2.2⟩

/-- The text the source assigns to a translated button: the pre-order
string (through the `textContent` conversion) when the pre-order context
holds, else the plain button text. -/
def expectedText (cfg : Cfg) (d : Doc) (b : Nat) : String :=
  if isPreorderFor d b then textContentSet cfg.preorderText else cfg.translatedText

/-- The text content of the node with identity `j`, if present. -/
def optTextOf (d : Doc) (j : Nat) : Option String :=
  (d.getById j).map Elem.text

/-- Whether the node with identity `j` exists and matches the selector. -/
def matchesAt (d : Doc) (s : Selector) (j : Nat) : Bool :=
  match d.getById j with
  | some e => s.matchesElem e
  | none => false

/-- The identity list of the document, used for well-formedness (distinct
node identities). -/
def idsOf (d : Doc) : List Nat :=
  d.elems.map Elem.id

/-- Positional relation between an element and its image after an operation:
identity, nodeType, tag, classes and attributes are untouched, and the text
may change only on an element matching the payment-button selector. -/
def FrameRel (e e' : Elem) : Prop :=
  e'.id = e.id ∧ e'.nodeType = e.nodeType ∧ e'.tag = e.tag ∧
  e'.classes = e.classes ∧ e'.attrs = e.attrs ∧
  (e'.text = e.text ∨ buttonSelector.matchesElem e = true)

/-- The frame property of the component: an operation leaves the parent map
and element list shape untouched, and element-wise satisfies `FrameRel` —
the only DOM side effect is text mutation of selector-matching elements. -/
def TextOnlyFrame (d d' : Doc) : Prop :=
  d'.parents = d.parents ∧ d'.elems.length = d.elems.length ∧
  ∀ pr ∈ List.zip d.elems d'.elems, FrameRel pr.1 pr.2

/-- The payment-button class. -/
def btnClass : String := "shopify-payment-button__button--unbranded"

/-- A sample document: body(0) containing a pre-order product-form(1) with a
payment button(2), a classed form(3) with a payment button(4), and a plain
div(5). -/
def dEx : Doc :=
  ⟨[⟨0, 1, "body", [], [], ""⟩,
    ⟨1, 1, "product-form", [], ["data-is-preorder"], ""⟩,
    ⟨2, 1, "button", [btnClass], [], "Old"⟩,
    ⟨3, 1, "form", ["product__form"], [], ""⟩,
    ⟨4, 1, "button", [btnClass], [], "Old2"⟩,
    ⟨5, 1, "div", [], [], ""⟩],
   [(1, 0), (2, 1), (3, 0), (4, 3), (5, 0)]⟩

/-- A sample translation table with both strings present. -/
def cfgEx : Cfg := ⟨"Buy now", some "Reserve now"⟩

/-- A sample translation table lacking `preorderButtonText`. -/
def cfgNoPre : Cfg := ⟨"Buy now", none⟩

/-- A sample document with no payment button at all. -/
def dEmpty : Doc := ⟨[⟨0, 1, "body", [], [], ""⟩], []⟩

end PBT

namespace PBT

/-! Invariance of the read-only queries under text mutation. -/

theorem find?_map_pres (u : Elem → Elem) (p : Elem → Bool)
    (hp : ∀ e, p (u e) = p e) :
    ∀ l : List Elem, (l.map u).find? p = (l.find? p).map u := by
  intro l
  induction l with
  | nil => rfl
  | cons a t ih =>
    simp only [List.map_cons, List.find?]
    rw [hp a]
    cases h : p a
    · simpa using ih
    · rfl

theorem filter_map_pres (u : Elem → Elem) (p : Elem → Bool)
    (hp : ∀ e, p (u e) = p e) (hid : ∀ e, (u e).id = e.id) :
    ∀ l : List Elem, ((l.map u).filter p).map Elem.id = (l.filter p).map Elem.id := by
  intro l
  induction l with
  | nil => rfl
  | cons a t ih =>
    simp only [List.map_cons, List.filter]
    rw [hp a]
    cases h : p a
    · simpa using ih
    · simp only [List.map_cons, hid a, ih]

@[simp] theorem updText_id (i : Nat) (t : String) (e : Elem) :
    (updText i t e).id = e.id := by
  unfold updText; split <;> rfl

@[simp] theorem updText_nodeType (i : Nat) (t : String) (e : Elem) :
    (updText i t e).nodeType = e.nodeType := by
  unfold updText; split <;> rfl

@[simp] theorem updText_tag (i : Nat) (t : String) (e : Elem) :
    (updText i t e).tag = e.tag := by
  unfold updText; split <;> rfl

@[simp] theorem updText_classes (i : Nat) (t : String) (e : Elem) :
    (updText i t e).classes = e.classes := by
  unfold updText; split <;> rfl

@[simp] theorem updText_attrs (i : Nat) (t : String) (e : Elem) :
    (updText i t e).attrs = e.attrs := by
  unfold updText; split <;> rfl

@[simp] theorem matchesElem_updText (s : Selector) (i : Nat) (t : String) (e : Elem) :
    s.matchesElem (updText i t e) = s.matchesElem e := by
  cases s <;> simp [Selector.matchesElem]

theorem getById_setText (d : Doc) (i : Nat) (t : String) (j : Nat) :
    (d.setText i t).getById j = (d.getById j).map (updText i t) := by
  unfold Doc.setText Doc.getById
  exact find?_map_pres _ _ (fun e => by simp) _

theorem getById_id {d : Doc} {j : Nat} {e : Elem} (h : d.getById j = some e) :
    e.id = j := by
  have := List.find?_some h
  simpa using this

@[simp] theorem parentOf_setText (d : Doc) (i : Nat) (t : String) (j : Nat) :
    (d.setText i t).parentOf j = d.parentOf j := rfl

@[simp] theorem length_setText (d : Doc) (i : Nat) (t : String) :
    (d.setText i t).elems.length = d.elems.length := by
  simp [Doc.setText]

theorem closestAux_setText (d : Doc) (i : Nat) (t : String) (s : Selector) :
    ∀ fuel j, closestAux (d.setText i t) s fuel j = closestAux d s fuel j := by
  intro fuel
  induction fuel with
  | zero => intro j; rfl
  | succ n ih =>
    intro j
    simp only [closestAux, getById_setText, parentOf_setText]
    cases h : d.getById j with
    | none => rfl
    | some e =>
      simp only [Option.map, matchesElem_updText]
      cases hm : s.matchesElem e
      · simp only [Bool.false_eq_true, if_false]
        cases d.parentOf j with
        | none => rfl
        | some p => exact ih p
      · simp

theorem closest_setText (d : Doc) (i : Nat) (t : String) (s : Selector) (j : Nat) :
    (d.setText i t).closest s j = d.closest s j := by
  unfold Doc.closest
  rw [length_setText, closestAux_setText]

theorem queryFirst_setText (d : Doc) (i : Nat) (t : String) (s : Selector) :
    (d.setText i t).queryFirst s = d.queryFirst s := by
  unfold Doc.queryFirst Doc.setText
  rw [find?_map_pres (updText i t) _ (fun e => by simp)]
  cases d.elems.find? (fun e => s.matchesElem e) with
  | none => rfl
  | some e => simp [Option.map]

theorem queryAll_setText (d : Doc) (i : Nat) (t : String) (s : Selector) :
    (d.setText i t).queryAll s = d.queryAll s := by
  unfold Doc.queryAll Doc.setText
  exact filter_map_pres _ _ (fun e => by simp) (fun e => by simp) _

theorem matchesAt_setText (d : Doc) (i : Nat) (t : String) (s : Selector) (j : Nat) :
    matchesAt (d.setText i t) s j = matchesAt d s j := by
  unfold matchesAt
  rw [getById_setText]
  cases d.getById j <;> simp

theorem hasAttributeAt_setText (d : Doc) (i : Nat) (t : String) (j : Nat) (a : String) :
    hasAttributeAt (d.setText i t) j a = hasAttributeAt d j a := by
  unfold hasAttributeAt
  rw [getById_setText]
  cases d.getById j <;> simp

theorem productFormOf_setText (d : Doc) (i : Nat) (t : String) (b : Nat) :
    productFormOf (d.setText i t) b = productFormOf d b := by
  unfold productFormOf
  rw [closest_setText, closest_setText, closest_setText, queryFirst_setText]

theorem isPreorderFor_setText (d : Doc) (i : Nat) (t : String) (b : Nat) :
    isPreorderFor (d.setText i t) b = isPreorderFor d b := by
  unfold isPreorderFor
  rw [productFormOf_setText]
  cases productFormOf d b with
  | none => rfl
  | some pf => exact hasAttributeAt_setText d i t pf _

theorem expectedText_setText (cfg : Cfg) (d : Doc) (i : Nat) (t : String) (b : Nat) :
    expectedText cfg (d.setText i t) b = expectedText cfg d b := by
  unfold expectedText
  rw [isPreorderFor_setText]

theorem map_id_of_pres (u : Elem → Elem) (hid : ∀ e, (u e).id = e.id) :
    ∀ l : List Elem, (l.map u).map Elem.id = l.map Elem.id := by
  intro l
  induction l with
  | nil => rfl
  | cons a tl ih => simp [hid a, ih]

theorem idsOf_setText (d : Doc) (i : Nat) (t : String) :
    idsOf (d.setText i t) = idsOf d := by
  unfold idsOf Doc.setText
  exact map_id_of_pres _ (fun e => updText_id _ _ _) _

theorem getById_setText_ne (d : Doc) (i : Nat) (t : String) {j : Nat} (hj : j ≠ i) :
    (d.setText i t).getById j = d.getById j := by
  rw [getById_setText]
  cases h : d.getById j with
  | none => rfl
  | some e =>
    have hid : e.id = j := getById_id h
    simp only [Option.map]
    unfold updText
    have : (e.id == i) = false := by
      rw [hid]; exact beq_eq_false_iff_ne.mpr hj
    rw [this]
    simp

theorem getById_setText_self {d : Doc} {b : Nat} {e : Elem} (t : String)
    (h : d.getById b = some e) :
    (d.setText b t).getById b = some { e with text := t } := by
  rw [getById_setText, h]
  have hid : e.id = b := getById_id h
  simp only [Option.map]
  unfold updText
  rw [hid]
  simp

end PBT

namespace PBT

/-! Canonical form of `translateButton` and its elementary properties. -/

theorem translateButton_eq (cfg : Cfg) (d : Doc) (st : CState) (b : Nat) (f : Bool) :
    translateButton cfg d st b f =
      if !f && st.processedButtons.contains b then (d, st)
      else if matchesAt d buttonSelector b then
        (d.setText b (expectedText cfg d b),
         ⟨procAdd b st.processedButtons, st.observedForms⟩)
      else (d, st) := by
  unfold translateButton matchesAt expectedText
  cases hskip : (!f && st.processedButtons.contains b)
  · simp only [Bool.false_eq_true, if_false]
    cases hg : d.getById b with
    | none => simp
    | some e =>
      cases hm : buttonSelector.matchesElem e
      · simp [hm]
      · simp [hm]
  · simp

theorem translateButton_doc_cases (cfg : Cfg) (d : Doc) (st : CState) (b : Nat) (f : Bool) :
    (translateButton cfg d st b f).1 = d ∨
    (translateButton cfg d st b f).1 = d.setText b (expectedText cfg d b) := by
  rw [translateButton_eq]
  split
  · exact Or.inl rfl
  · split
    · exact Or.inr rfl
    · exact Or.inl rfl

theorem matchesAt_translateButton (cfg : Cfg) (d : Doc) (st : CState) (b : Nat)
    (f : Bool) (s : Selector) (j : Nat) :
    matchesAt (translateButton cfg d st b f).1 s j = matchesAt d s j := by
  rcases translateButton_doc_cases cfg d st b f with h | h
  · rw [h]
  · rw [h, matchesAt_setText]

theorem isPreorderFor_translateButton (cfg : Cfg) (d : Doc) (st : CState) (b : Nat)
    (f : Bool) (j : Nat) :
    isPreorderFor (translateButton cfg d st b f).1 j = isPreorderFor d j := by
  rcases translateButton_doc_cases cfg d st b f with h | h
  · rw [h]
  · rw [h, isPreorderFor_setText]

theorem expectedText_translateButton (cfg cfg' : Cfg) (d : Doc) (st : CState) (b : Nat)
    (f : Bool) (j : Nat) :
    expectedText cfg' (translateButton cfg d st b f).1 j = expectedText cfg' d j := by
  unfold expectedText
  rw [isPreorderFor_translateButton]

theorem queryAll_translateButton (cfg : Cfg) (d : Doc) (st : CState) (b : Nat)
    (f : Bool) (s : Selector) :
    (translateButton cfg d st b f).1.queryAll s = d.queryAll s := by
  rcases translateButton_doc_cases cfg d st b f with h | h
  · rw [h]
  · rw [h, queryAll_setText]

theorem idsOf_translateButton (cfg : Cfg) (d : Doc) (st : CState) (b : Nat) (f : Bool) :
    idsOf (translateButton cfg d st b f).1 = idsOf d := by
  rcases translateButton_doc_cases cfg d st b f with h | h
  · rw [h]
  · rw [h, idsOf_setText]

theorem getById_translateButton_ne (cfg : Cfg) (d : Doc) (st : CState) (b : Nat)
    (f : Bool) {j : Nat} (hj : j ≠ b) :
    (translateButton cfg d st b f).1.getById j = d.getById j := by
  rcases translateButton_doc_cases cfg d st b f with h | h
  · rw [h]
  · rw [h, getById_setText_ne _ _ _ hj]

theorem observed_translateButton (cfg : Cfg) (d : Doc) (st : CState) (b : Nat) (f : Bool) :
    (translateButton cfg d st b f).2.observedForms = st.observedForms := by
  rw [translateButton_eq]
  split
  · rfl
  · split
    · rfl
    · rfl

theorem mem_procAdd_self (b : Nat) (l : List Nat) : b ∈ procAdd b l := by
  unfold procAdd
  split
  · next h => simpa using h
  · exact List.mem_cons_self b l

theorem mem_procAdd_of_mem {j : Nat} {l : List Nat} (b : Nat) (h : j ∈ l) :
    j ∈ procAdd b l := by
  unfold procAdd
  split
  · exact h
  · exact List.mem_cons_of_mem _ h

theorem mem_procAdd {j b : Nat} {l : List Nat} (h : j ∈ procAdd b l) :
    j = b ∨ j ∈ l := by
  unfold procAdd at h
  split at h
  · exact Or.inr h
  · rcases List.mem_cons.mp h with h1 | h1
    · exact Or.inl h1
    · exact Or.inr h1

theorem processed_mono_translateButton (cfg : Cfg) (d : Doc) (st : CState) (b : Nat)
    (f : Bool) {j : Nat} (hj : j ∈ st.processedButtons) :
    j ∈ (translateButton cfg d st b f).2.processedButtons := by
  rw [translateButton_eq]
  split
  · exact hj
  · split
    · exact mem_procAdd_of_mem _ hj
    · exact hj

theorem processed_sub_translateButton (cfg : Cfg) (d : Doc) (st : CState) (b : Nat)
    (f : Bool) {j : Nat}
    (hj : j ∈ (translateButton cfg d st b f).2.processedButtons) :
    j = b ∨ j ∈ st.processedButtons := by
  rw [translateButton_eq] at hj
  split at hj
  · exact Or.inr hj
  · split at hj
    · exact mem_procAdd hj
    · exact Or.inr hj

theorem processed_add_translateButton (cfg : Cfg) (d : Doc) (st : CState) (b : Nat)
    (f : Bool) (hm : matchesAt d buttonSelector b = true)
    (hcond : f = true ∨ b ∉ st.processedButtons) :
    b ∈ (translateButton cfg d st b f).2.processedButtons := by
  rw [translateButton_eq]
  have hskip : (!f && st.processedButtons.contains b) = false := by
    rcases hcond with h1 | h1
    · rw [h1]; rfl
    · simp [h1]
  rw [hskip, hm]
  simp only [Bool.false_eq_true, if_false, if_true]
  exact mem_procAdd_self b st.processedButtons

/-- A `translateButton` call that is neither forced nor on an unprocessed
node is a no-op. -/
theorem translateButton_skip (cfg : Cfg) (d : Doc) (st : CState) (b : Nat)
    (hmem : b ∈ st.processedButtons) :
    translateButton cfg d st b false = (d, st) := by
  rw [translateButton_eq]
  have : (!false && st.processedButtons.contains b) = true := by simp [hmem]
  rw [this]
  simp

/-- A `translateButton` call on a node that fails the selector check is a
no-op. -/
theorem translateButton_nomatch (cfg : Cfg) (d : Doc) (st : CState) (b : Nat) (f : Bool)
    (hm : matchesAt d buttonSelector b = false) :
    translateButton cfg d st b f = (d, st) := by
  rw [translateButton_eq]
  split
  · rfl
  · rw [hm]
    simp

/-- A successful translation: not skipped, selector matches. -/
theorem translateButton_translates (cfg : Cfg) (d : Doc) (st : CState) (b : Nat)
    (f : Bool) (hm : matchesAt d buttonSelector b = true)
    (hcond : f = true ∨ b ∉ st.processedButtons) :
    translateButton cfg d st b f =
      (d.setText b (expectedText cfg d b),
       ⟨procAdd b st.processedButtons, st.observedForms⟩) := by
  rw [translateButton_eq]
  have hskip : (!f && st.processedButtons.contains b) = false := by
    rcases hcond with h1 | h1
    · rw [h1]; rfl
    · simp [h1]
  rw [hskip, hm]
  simp

end PBT

namespace PBT

/-! Properties of folds of `translateButton` (the `forEach` loops). -/

theorem foldTranslate_nil (cfg : Cfg) (p : Doc × CState) :
    foldTranslate cfg [] p = p := rfl

theorem foldTranslate_cons (cfg : Cfg) (pr : Nat × Bool) (ps : List (Nat × Bool))
    (p : Doc × CState) :
    foldTranslate cfg (pr :: ps) p =
      foldTranslate cfg ps (translateButton cfg p.1 p.2 pr.1 pr.2) := rfl

theorem foldTranslate_append (cfg : Cfg) (xs ys : List (Nat × Bool)) (p : Doc × CState) :
    foldTranslate cfg (xs ++ ys) p = foldTranslate cfg ys (foldTranslate cfg xs p) := by
  unfold foldTranslate
  exact List.foldl_append _ _ _ _

theorem matchesAt_foldTranslate (cfg : Cfg) :
    ∀ (ps : List (Nat × Bool)) (p : Doc × CState) (s : Selector) (j : Nat),
      matchesAt (foldTranslate cfg ps p).1 s j = matchesAt p.1 s j := by
  intro ps
  induction ps with
  | nil => intro p s j; rfl
  | cons pr t ih =>
    intro p s j
    rw [foldTranslate_cons, ih, matchesAt_translateButton]

theorem isPreorderFor_foldTranslate (cfg : Cfg) :
    ∀ (ps : List (Nat × Bool)) (p : Doc × CState) (j : Nat),
      isPreorderFor (foldTranslate cfg ps p).1 j = isPreorderFor p.1 j := by
  intro ps
  induction ps with
  | nil => intro p j; rfl
  | cons pr t ih =>
    intro p j
    rw [foldTranslate_cons, ih, isPreorderFor_translateButton]

theorem expectedText_foldTranslate (cfg cfg' : Cfg) :
    ∀ (ps : List (Nat × Bool)) (p : Doc × CState) (j : Nat),
      expectedText cfg' (foldTranslate cfg ps p).1 j = expectedText cfg' p.1 j := by
  intro ps p j
  unfold expectedText
  rw [isPreorderFor_foldTranslate]

theorem queryAll_foldTranslate (cfg : Cfg) :
    ∀ (ps : List (Nat × Bool)) (p : Doc × CState) (s : Selector),
      (foldTranslate cfg ps p).1.queryAll s = p.1.queryAll s := by
  intro ps
  induction ps with
  | nil => intro p s; rfl
  | cons pr t ih =>
    intro p s
    rw [foldTranslate_cons, ih, queryAll_translateButton]

theorem idsOf_foldTranslate (cfg : Cfg) :
    ∀ (ps : List (Nat × Bool)) (p : Doc × CState),
      idsOf (foldTranslate cfg ps p).1 = idsOf p.1 := by
  intro ps
  induction ps with
  | nil => intro p; rfl
  | cons pr t ih =>
    intro p
    rw [foldTranslate_cons, ih, idsOf_translateButton]

theorem observed_foldTranslate (cfg : Cfg) :
    ∀ (ps : List (Nat × Bool)) (p : Doc × CState),
      (foldTranslate cfg ps p).2.observedForms = p.2.observedForms := by
  intro ps
  induction ps with
  | nil => intro p; rfl
  | cons pr t ih =>
    intro p
    rw [foldTranslate_cons, ih, observed_translateButton]

theorem processed_mono_foldTranslate (cfg : Cfg) :
    ∀ (ps : List (Nat × Bool)) (p : Doc × CState) {j : Nat},
      j ∈ p.2.processedButtons → j ∈ (foldTranslate cfg ps p).2.processedButtons := by
  intro ps
  induction ps with
  | nil => intro p j hj; exact hj
  | cons pr t ih =>
    intro p j hj
    rw [foldTranslate_cons]
    exact ih _ (processed_mono_translateButton _ _ _ _ _ hj)

theorem processed_sub_foldTranslate (cfg : Cfg) :
    ∀ (ps : List (Nat × Bool)) (p : Doc × CState) {j : Nat},
      j ∈ (foldTranslate cfg ps p).2.processedButtons →
      j ∈ ps.map Prod.fst ∨ j ∈ p.2.processedButtons := by
  intro ps
  induction ps with
  | nil => intro p j hj; exact Or.inr hj
  | cons pr t ih =>
    intro p j hj
    rw [foldTranslate_cons] at hj
    rcases ih _ hj with h1 | h1
    · exact Or.inl (List.mem_cons_of_mem _ h1)
    · rcases processed_sub_translateButton _ _ _ _ _ h1 with h2 | h2
      · exact Or.inl (by rw [h2]; exact List.mem_cons_self _ _)
      · exact Or.inr h2

theorem getById_foldTranslate_ne (cfg : Cfg) :
    ∀ (ps : List (Nat × Bool)) (p : Doc × CState) {j : Nat},
      j ∉ ps.map Prod.fst →
      (foldTranslate cfg ps p).1.getById j = p.1.getById j := by
  intro ps
  induction ps with
  | nil => intro p j _; rfl
  | cons pr t ih =>
    intro p j hj
    rw [List.map_cons] at hj
    have hne : j ≠ pr.1 := fun h => hj (by rw [h]; exact List.mem_cons_self _ _)
    have ht : j ∉ t.map Prod.fst := fun h => hj (List.mem_cons_of_mem _ h)
    rw [foldTranslate_cons, ih _ ht, getById_translateButton_ne _ _ _ _ _ hne]

theorem processed_forall_foldTranslate (cfg : Cfg) :
    ∀ (ps : List (Nat × Bool)) (p : Doc × CState) (b : Nat) (fb : Bool),
      (b, fb) ∈ ps → matchesAt p.1 buttonSelector b = true →
      b ∈ (foldTranslate cfg ps p).2.processedButtons := by
  intro ps
  induction ps with
  | nil => intro p b fb h _; exact absurd h (List.not_mem_nil _)
  | cons pr t ih =>
    intro p b fb hmem hm
    rw [foldTranslate_cons]
    rcases List.mem_cons.mp hmem with h1 | h1
    · by_cases hp : b ∈ p.2.processedButtons
      · exact processed_mono_foldTranslate cfg t _
          (processed_mono_translateButton _ _ _ _ _ hp)
      · have : b ∈ (translateButton cfg p.1 p.2 pr.1 pr.2).2.processedButtons := by
          have hb : pr.1 = b := by rw [← h1]
          rw [← hb] at hm hp ⊢
          exact processed_add_translateButton cfg p.1 p.2 pr.1 pr.2 hm (Or.inr hp)
        exact processed_mono_foldTranslate cfg t _ this
    · exact ih _ b fb h1 (by rw [matchesAt_translateButton]; exact hm)

theorem matchesAt_some {d : Doc} {s : Selector} {j : Nat}
    (h : matchesAt d s j = true) :
    ∃ e, d.getById j = some e ∧ s.matchesElem e = true := by
  unfold matchesAt at h
  cases hg : d.getById j with
  | none => rw [hg] at h; exact absurd h (by simp)
  | some e => rw [hg] at h; exact ⟨e, rfl, h⟩

/-- The central text-correctness lemma: a button translated at some position
of a `forEach` pass — provided it is not revisited later in the pass and the
call is not skipped — ends the pass with exactly the text the source
computes for it. -/
theorem foldTranslate_text_correct (cfg : Cfg) (d : Doc) (st : CState)
    (ps1 ps2 : List (Nat × Bool)) (b : Nat) (fb : Bool)
    (hm : matchesAt d buttonSelector b = true)
    (hb2 : b ∉ ps2.map Prod.fst)
    (hcond : fb = true ∨ b ∉ (foldTranslate cfg ps1 (d, st)).2.processedButtons) :
    optTextOf (foldTranslate cfg (ps1 ++ (b, fb) :: ps2) (d, st)).1 b =
      some (expectedText cfg d b) := by
  rw [foldTranslate_append, foldTranslate_cons]
  have hm1 : matchesAt (foldTranslate cfg ps1 (d, st)).1 buttonSelector b = true := by
    rw [matchesAt_foldTranslate]; exact hm
  rcases matchesAt_some hm1 with ⟨e, hge, _⟩
  have hstep := translateButton_translates cfg (foldTranslate cfg ps1 (d, st)).1
    (foldTranslate cfg ps1 (d, st)).2 b fb hm1 hcond
  unfold optTextOf
  rw [getById_foldTranslate_ne cfg ps2 _ hb2, hstep]
  rw [getById_setText_self _ hge]
  rw [expectedText_foldTranslate]
  rfl

end PBT

namespace PBT

/-! The `forEach` index flags, document well-formedness, and sweep-level
correctness lemmas. -/

theorem idxFlags_append :
    ∀ (xs ys : List Nat) (i : Nat),
      idxFlags i (xs ++ ys) = idxFlags i xs ++ idxFlags (i + xs.length) ys := by
  intro xs
  induction xs with
  | nil => intro ys i; simp [idxFlags]
  | cons a t ih =>
    intro ys i
    simp only [List.cons_append, idxFlags, List.length_cons, List.append_eq]
    rw [ih ys (i + 1)]
    have h : i + 1 + t.length = i + (t.length + 1) := by omega
    rw [h]

theorem idxFlags_map_fst : ∀ (l : List Nat) (i : Nat), (idxFlags i l).map Prod.fst = l := by
  intro l
  induction l with
  | nil => intro i; rfl
  | cons a t ih => intro i; simp [idxFlags, ih]

theorem idxFlags_pos : ∀ (l : List Nat) (i : Nat), 0 < i →
    idxFlags i l = l.map (fun b => (b, true)) := by
  intro l
  induction l with
  | nil => intro i _; rfl
  | cons a t ih =>
    intro i hi
    simp only [idxFlags, List.map_cons]
    rw [ih (i + 1) (by omega)]
    have : (i != 0) = true := bne_iff_ne.mpr (Nat.pos_iff_ne_zero.mp hi)
    rw [this]

theorem map_fst_map_true : ∀ l : List Nat,
    (l.map (fun b => (b, true))).map Prod.fst = l := by
  intro l
  induction l with
  | nil => rfl
  | cons a t ih => simp [ih]

theorem nodup_queryAll {d : Doc} (hN : (idsOf d).Nodup) (s : Selector) :
    (d.queryAll s).Nodup := by
  unfold Doc.queryAll
  unfold idsOf at hN
  have hsub : ((d.elems.filter (fun e => s.matchesElem e)).map Elem.id).Sublist
      (d.elems.map Elem.id) :=
    List.Sublist.map _ (List.filter_sublist _)
  exact List.Nodup.sublist hsub hN

theorem getById_of_mem {d : Doc} (hN : (idsOf d).Nodup) {e : Elem} {b : Nat}
    (he : e ∈ d.elems) (hid : e.id = b) : d.getById b = some e := by
  unfold idsOf at hN
  unfold Doc.getById
  cases hf : d.elems.find? (fun x => x.id == b) with
  | none =>
    have := List.find?_eq_none.mp hf e he
    simp [hid] at this
  | some x =>
    have hp := List.find?_some hf
    simp only [beq_iff_eq] at hp
    have hxmem : x ∈ d.elems := List.mem_of_find?_eq_some hf
    have hxe : x = e := by
      apply List.inj_on_of_nodup_map hN hxmem he
      rw [hp, hid]
    rw [hxe]

theorem mem_queryAll_matchesAt {d : Doc} (hN : (idsOf d).Nodup) {s : Selector} {b : Nat}
    (hb : b ∈ d.queryAll s) : matchesAt d s b = true := by
  unfold Doc.queryAll at hb
  rcases List.mem_map.mp hb with ⟨e, he, hid⟩
  rcases List.mem_filter.mp he with ⟨hmem, hmatch⟩
  have hg : d.getById b = some e := getById_of_mem hN hmem hid
  unfold matchesAt
  rw [hg]
  exact hmatch

theorem nodup_split {l l1 l2 : List Nat} {b : Nat} (hN : l.Nodup)
    (hsplit : l = l1 ++ b :: l2) : b ∉ l1 ∧ b ∉ l2 := by
  rw [hsplit] at hN
  rcases List.nodup_append.mp hN with ⟨_, hcons, hdisj⟩
  refine ⟨fun h1 => hdisj h1 (List.mem_cons_self _ _), ?_⟩
  exact (List.nodup_cons.mp hcons).1

theorem procAdd_mem {b : Nat} {l : List Nat} (h : b ∈ l) : procAdd b l = l := by
  unfold procAdd
  rw [if_pos (by simpa using h)]

theorem map_updText_id {b : Nat} {t : String} :
    ∀ l : List Elem, (∀ e ∈ l, e.id = b → e.text = t) → l.map (updText b t) = l := by
  intro l
  induction l with
  | nil => intro _; rfl
  | cons a tl ih =>
    intro h
    simp only [List.map_cons]
    have h1 : updText b t a = a := by
      unfold updText
      by_cases hid : a.id = b
      · have ht := h a (List.mem_cons_self _ _) hid
        rw [if_pos (by simpa using hid), ← ht]
      · rw [if_neg (by simpa using hid)]
    rw [h1, ih (fun e he hid => h e (List.mem_cons_of_mem _ he) hid)]

theorem setText_self {d : Doc} {b : Nat} {t : String}
    (h : ∀ e ∈ d.elems, e.id = b → e.text = t) : d.setText b t = d := by
  unfold Doc.setText
  rw [map_updText_id d.elems h]

theorem foldTranslate_id (cfg : Cfg) :
    ∀ (ps : List (Nat × Bool)) (p : Doc × CState),
      (∀ pr ∈ ps, translateButton cfg p.1 p.2 pr.1 pr.2 = p) →
      foldTranslate cfg ps p = p := by
  intro ps
  induction ps with
  | nil => intro p _; rfl
  | cons pr t ih =>
    intro p h
    rw [foldTranslate_cons, h pr (List.mem_cons_self _ _)]
    exact ih p (fun q hq => h q (List.mem_cons_of_mem _ hq))

/-- After a sweep from an empty Processed-Set, every matching button carries
exactly the text the source computes for it. -/
theorem init_text_correct (cfg : Cfg) (d : Doc) (st : CState)
    (hN : (idsOf d).Nodup) (hst : st.processedButtons = []) {b : Nat}
    (hb : b ∈ d.queryAll buttonSelector) :
    optTextOf (init cfg d st).1 b = some (expectedText cfg d b) := by
  rcases List.append_of_mem hb with ⟨L1, L2, hsplit⟩
  rcases nodup_split (nodup_queryAll hN buttonSelector) hsplit with ⟨h1, h2⟩
  unfold init
  rw [hsplit, idxFlags_append]
  show optTextOf (foldTranslate cfg
    (idxFlags 0 L1 ++ (b, (0 + L1.length) != 0) ::
      idxFlags (0 + L1.length + 1) L2) (d, st)).1 b = _
  apply foldTranslate_text_correct cfg d st _ _ b _
    (mem_queryAll_matchesAt hN hb)
  · rw [idxFlags_map_fst]
    exact h2
  · refine Or.inr (fun hmem => ?_)
    rcases processed_sub_foldTranslate cfg _ _ hmem with hc | hc
    · rw [idxFlags_map_fst] at hc
      exact h1 hc
    · rw [hst] at hc
      exact List.not_mem_nil _ hc

/-- After a sweep with any prior state, a matching button that is not the
first entry of the query snapshot carries exactly the computed text (its
`forEach` index is nonzero, hence truthy in the `forceUpdate` slot). -/
theorem init_text_tail (cfg : Cfg) (d : Doc) (st : CState)
    (hN : (idsOf d).Nodup) {b0 b : Nat} {R : List Nat}
    (hQ : d.queryAll buttonSelector = b0 :: R) (hb : b ∈ R) :
    optTextOf (init cfg d st).1 b = some (expectedText cfg d b) := by
  rcases List.append_of_mem hb with ⟨R1, R2, hsplit⟩
  have hNL : (d.queryAll buttonSelector).Nodup := nodup_queryAll hN buttonSelector
  rw [hQ, hsplit] at hNL
  have h2 : b ∉ R2 := by
    rcases List.nodup_cons.mp hNL with ⟨_, htail⟩
    exact (nodup_split htail rfl).2
  have hm : matchesAt d buttonSelector b = true := by
    apply mem_queryAll_matchesAt hN
    rw [hQ]
    exact List.mem_cons_of_mem _ hb
  unfold init
  rw [hQ, hsplit]
  show optTextOf (foldTranslate cfg (idxFlags 0 (b0 :: (R1 ++ b :: R2))) (d, st)).1 b = _
  rw [show idxFlags 0 (b0 :: (R1 ++ b :: R2)) =
      (b0, (0 : Nat) != 0) :: idxFlags 1 (R1 ++ b :: R2) from rfl]
  rw [idxFlags_append]
  show optTextOf (foldTranslate cfg
    (((b0, (0 : Nat) != 0) :: idxFlags 1 R1) ++
      (b, (1 + R1.length) != 0) :: idxFlags (1 + R1.length + 1) R2) (d, st)).1 b = _
  apply foldTranslate_text_correct cfg d st _ _ b _ hm
  · rw [idxFlags_map_fst]
    exact h2
  · exact Or.inl (bne_iff_ne.mpr (by omega))

/-- After a sweep, every member of the query snapshot is in the
Processed-Set. -/
theorem init_processed_all (cfg : Cfg) (d : Doc) (st : CState)
    (hN : (idsOf d).Nodup) {b : Nat} (hb : b ∈ d.queryAll buttonSelector) :
    b ∈ (init cfg d st).2.processedButtons := by
  have hmem : b ∈ (idxFlags 0 (d.queryAll buttonSelector)).map Prod.fst := by
    rw [idxFlags_map_fst]
    exact hb
  rcases List.mem_map.mp hmem with ⟨pr, hpr, hfst⟩
  unfold init
  apply processed_forall_foldTranslate cfg _ _ b pr.2
  · rw [← hfst]
    exact hpr
  · exact mem_queryAll_matchesAt hN hb

end PBT

namespace PBT

/-! The retry loop on a document with no matching button. -/

theorem init_empty (cfg : Cfg) (d : Doc) (st : CState)
    (hz : d.queryAll buttonSelector = []) : init cfg d st = (d, st) := by
  unfold init
  rw [hz]
  rfl

theorem initWithRetryStep_empty (cfg : Cfg) (d : Doc) (st : CState) (r : RetrySt)
    (hz : d.queryAll buttonSelector = []) :
    initWithRetryStep cfg d st r =
      if r.retryCount < MAX_RETRIES then
        (d, st, ⟨r.retryCount + 1, r.sweepCount + 1, r.installCount, true⟩)
      else
        (d, setupAttributeObserver d st,
         ⟨r.retryCount, r.sweepCount + 1, r.installCount + 1, false⟩) := by
  unfold initWithRetryStep
  rw [init_empty cfg d st hz]
  simp only [hz, List.length_nil, true_and]

theorem retryTrace_empty (cfg : Cfg) (d : Doc) (st : CState)
    (hz : d.queryAll buttonSelector = []) :
    ∀ k, retryTrace cfg d st k =
      if k < MAX_RETRIES then (d, st, ⟨k + 1, k + 1, 0, true⟩)
      else (d, setupAttributeObserver d st, ⟨3, 4, 1, false⟩) := by
  intro k
  induction k with
  | zero =>
    have h0 : retryTrace cfg d st 0 = initWithRetryStep cfg d st ⟨0, 0, 0, false⟩ := rfl
    rw [h0, initWithRetryStep_empty cfg d st _ hz]
    norm_num [MAX_RETRIES]
  | succ k ih =>
    simp only [retryTrace]
    rw [ih]
    by_cases hk : k < MAX_RETRIES
    · rw [if_pos hk]
      simp only []
      rw [initWithRetryStep_empty cfg d st _ hz]
      by_cases hk1 : k + 1 < MAX_RETRIES
      · rw [if_pos hk1, if_pos hk1]
        rfl
      · rw [if_neg hk1, if_neg hk1]
        have h3 : k + 1 = 3 := by
          simp only [MAX_RETRIES] at hk hk1
          omega
        rw [h3]
        simp
    · rw [if_neg hk]
      have hk1 : ¬ (k + 1 < MAX_RETRIES) := by
        simp only [MAX_RETRIES] at hk ⊢
        omega
      rw [if_neg hk1]
      rfl

end PBT

namespace PBT

/-! Idempotence of the sweep and the forced re-translation pass. -/

theorem init_idem (cfg : Cfg) (d : Doc) (st : CState) (hN : (idsOf d).Nodup) :
    init cfg (init cfg d st).1 (init cfg d st).2 = init cfg d st := by
  have hQ1 : (init cfg d st).1.queryAll buttonSelector = d.queryAll buttonSelector :=
    queryAll_foldTranslate cfg _ _ _
  have hN1 : (idsOf (init cfg d st).1).Nodup := by
    rw [show idsOf (init cfg d st).1 = idsOf d from idsOf_foldTranslate cfg _ _]
    exact hN
  show foldTranslate cfg
      (idxFlags 0 ((init cfg d st).1.queryAll buttonSelector))
      ((init cfg d st).1, (init cfg d st).2) = init cfg d st
  rw [hQ1]
  cases hL : d.queryAll buttonSelector with
  | nil => rfl
  | cons b0 R =>
    rw [show idxFlags 0 (b0 :: R) = (b0, (0 : Nat) != 0) :: idxFlags 1 R from rfl]
    rw [idxFlags_pos R 1 (by omega)]
    apply foldTranslate_id
    intro pr hpr
    rcases List.mem_cons.mp hpr with h1 | h1
    · rw [h1]
      have hb0 : b0 ∈ d.queryAll buttonSelector := by
        rw [hL]; exact List.mem_cons_self _ _
      have hmem : b0 ∈ (init cfg d st).2.processedButtons :=
        init_processed_all cfg d st hN hb0
      exact translateButton_skip cfg _ _ b0 hmem
    · rcases List.mem_map.mp h1 with ⟨b, hbR, hpr2⟩
      rw [← hpr2]
      have hbQ : b ∈ d.queryAll buttonSelector := by
        rw [hL]; exact List.mem_cons_of_mem _ hbR
      have hm1 : matchesAt (init cfg d st).1 buttonSelector b = true := by
        rw [show matchesAt (init cfg d st).1 buttonSelector b =
            matchesAt d buttonSelector b from matchesAt_foldTranslate cfg _ _ _ _]
        exact mem_queryAll_matchesAt hN hbQ
      rw [translateButton_translates cfg _ _ b true hm1 (Or.inl rfl)]
      have htext : optTextOf (init cfg d st).1 b = some (expectedText cfg d b) :=
        init_text_tail cfg d st hN hL hbR
      have hexp : expectedText cfg (init cfg d st).1 b = expectedText cfg d b :=
        expectedText_foldTranslate cfg cfg _ _ _
      have hset : (init cfg d st).1.setText b
          (expectedText cfg (init cfg d st).1 b) = (init cfg d st).1 := by
        rw [hexp]
        apply setText_self
        intro e he hid
        have hg : (init cfg d st).1.getById b = some e := getById_of_mem hN1 he hid
        unfold optTextOf at htext
        rw [hg] at htext
        simpa using htext
      have hproc : procAdd b (init cfg d st).2.processedButtons =
          (init cfg d st).2.processedButtons :=
        procAdd_mem (init_processed_all cfg d st hN hbQ)
      rw [hset, hproc]

theorem onFormAttributeChange_text (cfg : Cfg) (d : Doc) (st : CState)
    (hN : (idsOf d).Nodup) {b : Nat} (hb : b ∈ d.queryAll buttonSelector) :
    optTextOf (onFormAttributeChange cfg d st).1 b = some (expectedText cfg d b) := by
  rcases List.append_of_mem hb with ⟨L1, L2, hsplit⟩
  rcases nodup_split (nodup_queryAll hN buttonSelector) hsplit with ⟨h1, h2⟩
  unfold onFormAttributeChange
  rw [hsplit, List.map_append, List.map_cons]
  apply foldTranslate_text_correct cfg d st _ _ b true (mem_queryAll_matchesAt hN hb)
  · rw [map_fst_map_true]
    exact h2
  · exact Or.inl rfl

theorem onFormAttributeChange_processed (cfg : Cfg) (d : Doc) (st : CState)
    (hN : (idsOf d).Nodup) {b : Nat} (hb : b ∈ d.queryAll buttonSelector) :
    b ∈ (onFormAttributeChange cfg d st).2.processedButtons := by
  unfold onFormAttributeChange
  apply processed_forall_foldTranslate cfg _ _ b true
  · exact List.mem_map.mpr ⟨b, hb, rfl⟩
  · exact mem_queryAll_matchesAt hN hb

end PBT

namespace PBT

/-! The text-only frame property. -/

theorem matchesElem_congr {e e' : Elem} (s : Selector) (htag : e'.tag = e.tag)
    (hcls : e'.classes = e.classes) (hattr : e'.attrs = e.attrs) :
    s.matchesElem e' = s.matchesElem e := by
  cases s <;> simp [Selector.matchesElem, htag, hcls, hattr]

theorem zip_self_mem {l : List Elem} :
    ∀ pr ∈ List.zip l l, pr.2 = pr.1 := by
  induction l with
  | nil => intro pr hpr; exact absurd hpr (List.not_mem_nil _)
  | cons a t ih =>
    intro pr hpr
    rcases List.mem_cons.mp hpr with h | h
    · rw [h]
    · exact ih pr h

theorem frame_refl (d : Doc) : TextOnlyFrame d d := by
  refine ⟨rfl, rfl, fun pr hpr => ?_⟩
  rw [zip_self_mem pr hpr]
  exact ⟨rfl, rfl, rfl, rfl, rfl, Or.inl rfl⟩

theorem frameRel_trans {a a' a'' : Elem} (h1 : FrameRel a a') (h2 : FrameRel a' a'') :
    FrameRel a a'' := by
  obtain ⟨i1, n1, t1, c1, at1, x1⟩ := h1
  obtain ⟨i2, n2, t2, c2, at2, x2⟩ := h2
  refine ⟨i2.trans i1, n2.trans n1, t2.trans t1, c2.trans c1, at2.trans at1, ?_⟩
  have hm : buttonSelector.matchesElem a' = buttonSelector.matchesElem a :=
    matchesElem_congr _ t1 c1 at1
  rcases x2 with hx2 | hx2
  · rcases x1 with hx1 | hx1
    · exact Or.inl (hx2.trans hx1)
    · exact Or.inr hx1
  · rw [hm] at hx2
    exact Or.inr hx2

theorem frameZip_trans : ∀ (l l' l'' : List Elem),
    l'.length = l.length → l''.length = l'.length →
    (∀ pr ∈ List.zip l l', FrameRel pr.1 pr.2) →
    (∀ pr ∈ List.zip l' l'', FrameRel pr.1 pr.2) →
    ∀ pr ∈ List.zip l l'', FrameRel pr.1 pr.2 := by
  intro l
  induction l with
  | nil => intro l' l'' _ _ _ _ pr hpr; exact absurd hpr (List.not_mem_nil _)
  | cons a t ih =>
    intro l' l'' hlen1 hlen2 h1 h2 pr hpr
    cases l' with
    | nil => exact absurd hlen1 (by simp)
    | cons a' t' =>
      cases l'' with
      | nil => exact absurd hpr (List.not_mem_nil _)
      | cons a'' t'' =>
        rcases List.mem_cons.mp hpr with h | h
        · rw [h]
          exact frameRel_trans
            (h1 (a, a') (List.mem_cons_self _ _))
            (h2 (a', a'') (List.mem_cons_self _ _))
        · refine ih t' t'' (by simpa using hlen1) (by simpa using hlen2)
            (fun q hq => h1 q (List.mem_cons_of_mem _ hq))
            (fun q hq => h2 q (List.mem_cons_of_mem _ hq)) pr h

theorem frame_trans {d d' d'' : Doc} (h1 : TextOnlyFrame d d')
    (h2 : TextOnlyFrame d' d'') : TextOnlyFrame d d'' := by
  obtain ⟨p1, l1, z1⟩ := h1
  obtain ⟨p2, l2, z2⟩ := h2
  exact ⟨p2.trans p1, l2.trans l1, frameZip_trans _ _ _ l1 l2 z1 z2⟩

theorem zip_map_mem {l : List Elem} {u : Elem → Elem} :
    ∀ pr ∈ List.zip l (l.map u), ∃ e ∈ l, pr = (e, u e) := by
  induction l with
  | nil => intro pr hpr; exact absurd hpr (List.not_mem_nil _)
  | cons a t ih =>
    intro pr hpr
    rcases List.mem_cons.mp hpr with h | h
    · exact ⟨a, List.mem_cons_self _ _, h⟩
    · rcases ih pr h with ⟨e, he, hpr2⟩
      exact ⟨e, List.mem_cons_of_mem _ he, hpr2⟩

theorem frame_setText {d : Doc} {b : Nat} {t : String}
    (hmatch : ∀ e ∈ d.elems, e.id = b → buttonSelector.matchesElem e = true) :
    TextOnlyFrame d (d.setText b t) := by
  refine ⟨rfl, by simp [Doc.setText], fun pr hpr => ?_⟩
  rcases zip_map_mem pr hpr with ⟨e, he, hpr2⟩
  rw [hpr2]
  refine ⟨updText_id _ _ _, updText_nodeType _ _ _, updText_tag _ _ _,
    updText_classes _ _ _, updText_attrs _ _ _, ?_⟩
  unfold updText
  by_cases hid : e.id = b
  · exact Or.inr (hmatch e he hid)
  · rw [if_neg (by simpa using hid)]
    exact Or.inl rfl

theorem matches_all_of_matchesAt {d : Doc} {b : Nat} (hN : (idsOf d).Nodup)
    (hm : matchesAt d buttonSelector b = true) :
    ∀ e ∈ d.elems, e.id = b → buttonSelector.matchesElem e = true := by
  rcases matchesAt_some hm with ⟨e0, hg0, hm0⟩
  intro e he hid
  have hg : d.getById b = some e := getById_of_mem hN he hid
  rw [hg0] at hg
  have : e0 = e := by injection hg
  rw [← this]
  exact hm0

theorem translateButton_doc_cases2 (cfg : Cfg) (d : Doc) (st : CState) (b : Nat)
    (f : Bool) :
    (translateButton cfg d st b f).1 = d ∨
    (matchesAt d buttonSelector b = true ∧
      (translateButton cfg d st b f).1 = d.setText b (expectedText cfg d b)) := by
  rw [translateButton_eq]
  split
  · exact Or.inl rfl
  · split
    · next h => exact Or.inr ⟨h, rfl⟩
    · exact Or.inl rfl

theorem frame_translateButton (cfg : Cfg) (d : Doc) (st : CState) (b : Nat) (f : Bool)
    (hN : (idsOf d).Nodup) :
    TextOnlyFrame d (translateButton cfg d st b f).1 := by
  rcases translateButton_doc_cases2 cfg d st b f with h | ⟨hm, h⟩
  · rw [h]; exact frame_refl d
  · rw [h]
    exact frame_setText (matches_all_of_matchesAt hN hm)

theorem frame_foldTranslate (cfg : Cfg) :
    ∀ (ps : List (Nat × Bool)) (p : Doc × CState), (idsOf p.1).Nodup →
      TextOnlyFrame p.1 (foldTranslate cfg ps p).1 := by
  intro ps
  induction ps with
  | nil => intro p _; exact frame_refl p.1
  | cons pr t ih =>
    intro p hN
    rw [foldTranslate_cons]
    have h1 : TextOnlyFrame p.1 (translateButton cfg p.1 p.2 pr.1 pr.2).1 :=
      frame_translateButton cfg p.1 p.2 pr.1 pr.2 hN
    have hN1 : (idsOf (translateButton cfg p.1 p.2 pr.1 pr.2).1).Nodup := by
      rw [idsOf_translateButton]; exact hN
    exact frame_trans h1 (ih _ hN1)

theorem idsOf_processAddedNode (cfg : Cfg) (p : Doc × CState) (n : Nat) :
    idsOf (processAddedNode cfg p n).1 = idsOf p.1 := by
  cases hg : p.1.getById n with
  | none => simp only [processAddedNode, hg]
  | some e =>
    simp only [processAddedNode, hg]
    split
    · rw [idsOf_foldTranslate]
      split
      · rw [idsOf_translateButton]
      · rfl
    · rfl

theorem frame_processAddedNode (cfg : Cfg) (p : Doc × CState) (n : Nat)
    (hN : (idsOf p.1).Nodup) :
    TextOnlyFrame p.1 (processAddedNode cfg p n).1 := by
  cases hg : p.1.getById n with
  | none =>
    simp only [processAddedNode, hg]
    exact frame_refl p.1
  | some e =>
    simp only [processAddedNode, hg]
    split
    · have h1 : TextOnlyFrame p.1 (if buttonSelector.matchesElem e then
          translateButton cfg p.1 p.2 n false else p).1 := by
        split
        · exact frame_translateButton cfg p.1 p.2 n false hN
        · exact frame_refl p.1
      have hN1 : (idsOf (if buttonSelector.matchesElem e then
          translateButton cfg p.1 p.2 n false else p).1).Nodup := by
        split
        · rw [idsOf_translateButton]; exact hN
        · exact hN
      exact frame_trans h1 (frame_foldTranslate cfg _ _ hN1)
    · exact frame_refl p.1

theorem idsOf_foldNodes (cfg : Cfg) :
    ∀ (ns : List Nat) (p : Doc × CState),
      idsOf (ns.foldl (processAddedNode cfg) p).1 = idsOf p.1 := by
  intro ns
  induction ns with
  | nil => intro p; rfl
  | cons n t ih =>
    intro p
    rw [List.foldl_cons, ih, idsOf_processAddedNode]

theorem frame_foldNodes (cfg : Cfg) :
    ∀ (ns : List Nat) (p : Doc × CState), (idsOf p.1).Nodup →
      TextOnlyFrame p.1 (ns.foldl (processAddedNode cfg) p).1 := by
  intro ns
  induction ns with
  | nil => intro p _; exact frame_refl p.1
  | cons n t ih =>
    intro p hN
    rw [List.foldl_cons]
    have h1 := frame_processAddedNode cfg p n hN
    have hN1 : (idsOf (processAddedNode cfg p n).1).Nodup := by
      rw [idsOf_processAddedNode]; exact hN
    exact frame_trans h1 (ih _ hN1)

theorem idsOf_processMutations (cfg : Cfg) (d : Doc) (st : CState) :
    ∀ (muts : List MutationRecord),
      idsOf (processMutations cfg d st muts).1 = idsOf d := by
  have key : ∀ (muts : List MutationRecord) (p : Doc × CState),
      idsOf (muts.foldl (fun q m => m.addedNodes.foldl (processAddedNode cfg) q) p).1 =
        idsOf p.1 := by
    intro muts
    induction muts with
    | nil => intro p; rfl
    | cons m t ih =>
      intro p
      rw [List.foldl_cons, ih, idsOf_foldNodes]
  intro muts
  exact key muts (d, st)

theorem frame_processMutations (cfg : Cfg) (d : Doc) (st : CState)
    (muts : List MutationRecord) (hN : (idsOf d).Nodup) :
    TextOnlyFrame d (processMutations cfg d st muts).1 := by
  have key : ∀ (ms : List MutationRecord) (p : Doc × CState), (idsOf p.1).Nodup →
      TextOnlyFrame p.1
        (ms.foldl (fun q m => m.addedNodes.foldl (processAddedNode cfg) q) p).1 := by
    intro ms
    induction ms with
    | nil => intro p _; exact frame_refl p.1
    | cons m t ih =>
      intro p hNp
      rw [List.foldl_cons]
      have h1 := frame_foldNodes cfg m.addedNodes p hNp
      have hN1 : (idsOf (m.addedNodes.foldl (processAddedNode cfg) p).1).Nodup := by
        rw [idsOf_foldNodes]; exact hNp
      exact frame_trans h1 (ih _ hN1)
  exact key muts (d, st) hN

end PBT

namespace PBT

/-! The claims. -/

/-- C1: for every button element present in the document at the initial
sweep, after `sweep()` (`init`) completes from the initial empty state, the
button's text equals `buttonText`, unless the button's governing form (the
result of the source's ancestor lookup) carries the `data-is-preorder`
marker, in which case it equals `preorderButtonText`. -/
theorem c1_initial_sweep_text (cfg : Cfg) (d : Doc) (pt : String)
    (hN : (idsOf d).Nodup) (hpt : cfg.preorderText = some pt) {b : Nat}
    (hb : b ∈ d.queryAll buttonSelector) :
    optTextOf (init cfg d ⟨[], []⟩).1 b =
      some (if isPreorderFor d b then pt else cfg.translatedText) := by
  rw [init_text_correct cfg d ⟨[], []⟩ hN rfl hb]
  unfold expectedText
  rw [hpt]
  rfl

theorem c1_initial_sweep_text_witness :
    optTextOf (init cfgEx dEx ⟨[], []⟩).1 2 =
      some (if isPreorderFor dEx 2 then "Reserve now" else "Buy now") :=
  c1_initial_sweep_text cfgEx dEx "Reserve now" (by decide) rfl (by decide)

/-- C2: `translateButton` is idempotent with `forceUpdate = false`: on an
unprocessed matching button, the first call writes exactly the computed
text, and the second call is a no-op on document and state; consequently a
repeated sweep is a no-op (second `init` returns document and state
unchanged). -/
theorem c2_translate_idempotent (cfg : Cfg) (d : Doc) (st : CState) (b : Nat)
    (hN : (idsOf d).Nodup) (hm : matchesAt d buttonSelector b = true)
    (hun : b ∉ st.processedButtons) :
    optTextOf (translateButton cfg d st b false).1 b = some (expectedText cfg d b) ∧
    translateButton cfg (translateButton cfg d st b false).1
      (translateButton cfg d st b false).2 b false =
      translateButton cfg d st b false ∧
    init cfg (init cfg d st).1 (init cfg d st).2 = init cfg d st := by
  have h1 := translateButton_translates cfg d st b false hm (Or.inr hun)
  refine ⟨?_, ?_, init_idem cfg d st hN⟩
  · rw [h1]
    rcases matchesAt_some hm with ⟨e, hge, _⟩
    unfold optTextOf
    rw [getById_setText_self _ hge]
    rfl
  · have hb1 : b ∈ (translateButton cfg d st b false).2.processedButtons :=
      processed_add_translateButton cfg d st b false hm (Or.inr hun)
    exact translateButton_skip cfg _ _ b hb1

theorem c2_translate_idempotent_witness :
    translateButton cfgEx (translateButton cfgEx dEx ⟨[], []⟩ 2 false).1
      (translateButton cfgEx dEx ⟨[], []⟩ 2 false).2 2 false =
      translateButton cfgEx dEx ⟨[], []⟩ 2 false :=
  (c2_translate_idempotent cfgEx dEx ⟨[], []⟩ 2 (by decide) (by decide)
    (by decide)).2.1

/-- C3: if the document holds no matching button (and stays so through the
retry phase), the sweep runs at most 4 times (1 initial + 3 retries); from
the third timer firing on, exactly 4 sweeps have run, the persistent
observers have been installed exactly once, and no further timer is
pending. -/
theorem c3_retry_bound (cfg : Cfg) (d : Doc)
    (hz : d.queryAll buttonSelector = []) :
    ∀ k, ((retryTrace cfg d ⟨[], []⟩ k).2.2.sweepCount ≤ 4 ∧
          (retryTrace cfg d ⟨[], []⟩ k).2.2.installCount ≤ 1) ∧
         (3 ≤ k → (retryTrace cfg d ⟨[], []⟩ k).2.2.sweepCount = 4 ∧
                   (retryTrace cfg d ⟨[], []⟩ k).2.2.installCount = 1 ∧
                   (retryTrace cfg d ⟨[], []⟩ k).2.2.pendingTimer = false) := by
  intro k
  rw [retryTrace_empty cfg d ⟨[], []⟩ hz k]
  by_cases hk : k < MAX_RETRIES
  · rw [if_pos hk]
    simp only [MAX_RETRIES] at hk
    refine ⟨⟨?_, ?_⟩, ?_⟩
    · show k + 1 ≤ 4
      omega
    · show (0 : Nat) ≤ 1
      omega
    · intro h3
      omega
  · rw [if_neg hk]
    refine ⟨⟨?_, ?_⟩, fun _ => ⟨rfl, rfl, rfl⟩⟩
    · show (4 : Nat) ≤ 4
      omega
    · show (1 : Nat) ≤ 1
      omega

theorem c3_retry_bound_witness :
    (retryTrace cfgEx dEmpty ⟨[], []⟩ 5).2.2.sweepCount = 4 ∧
    (retryTrace cfgEx dEmpty ⟨[], []⟩ 5).2.2.installCount = 1 ∧
    (retryTrace cfgEx dEmpty ⟨[], []⟩ 5).2.2.pendingTimer = false :=
  (c3_retry_bound cfgEx dEmpty rfl 5).2 (by omega)

/-- C4: the attribute-observer callback re-translates every button matching
the selector anywhere in the document with `forceUpdate = true`: its text is
recomputed to the source's expected value and the button is (re)inserted in
the Processed-Set, regardless of the prior state (including buttons already
processed). -/
theorem c4_attr_change_forces_all (cfg : Cfg) (d : Doc) (st : CState)
    (hN : (idsOf d).Nodup) {b : Nat} (hb : b ∈ d.queryAll buttonSelector) :
    optTextOf (onFormAttributeChange cfg d st).1 b = some (expectedText cfg d b) ∧
    b ∈ (onFormAttributeChange cfg d st).2.processedButtons :=
  ⟨onFormAttributeChange_text cfg d st hN hb,
   onFormAttributeChange_processed cfg d st hN hb⟩

theorem c4_attr_change_forces_all_witness :
    optTextOf (onFormAttributeChange cfgEx dEx ⟨[2, 4], []⟩).1 2 =
      some (expectedText cfgEx dEx 2) ∧
    2 ∈ (onFormAttributeChange cfgEx dEx ⟨[2, 4], []⟩).2.processedButtons :=
  c4_attr_change_forces_all cfgEx dEx ⟨[2, 4], []⟩ (by decide) (by decide)

/-- C5 (code bug): when a second mutation batch arrives inside the debounce
window, `clearTimeout` discards the first batch together with its pending
pass, and the rescheduled callback iterates only the second batch — so a
button added by the first batch (id 2, outside the second batch's subtrees)
is never translated: its text stays "Old" after the timer fires, although
the same delivery alone would have set it to "Reserve now". -/
theorem c5_debounce_loses_batch :
    optTextOf (fireDebounce cfgEx dEx ⟨[], []⟩
        (handleMutations (handleMutations none [⟨[2]⟩]) [⟨[5]⟩])).1 2 =
      some "Old" ∧
    optTextOf (fireDebounce cfgEx dEx ⟨[], []⟩
        (handleMutations none [⟨[2]⟩])).1 2 = some "Reserve now" := by
  exact ⟨rfl, rfl⟩

/-- C6: when `window.paymentButtonStrings` is absent, the script logs the
warning and performs no work: the document is unchanged, both WeakSets stay
empty, and no observer is installed, whatever the document and however many
timer firings occur. -/
theorem c6_missing_table_no_work (d : Doc) (k : Nat) :
    runScript none d k = scriptAbort d ∧
    (runScript none d k).warned = true ∧
    (runScript none d k).doc = d ∧
    (runScript none d k).cstate.processedButtons = [] ∧
    (runScript none d k).cstate.observedForms = [] ∧
    (runScript none d k).retry.installCount = 0 :=
  ⟨rfl, rfl, rfl, rfl, rfl, rfl⟩

/-- C7 (counterexample): the claim that `translateButton` always inserts its
argument into the Processed-Set regardless of anything is false — a node
that fails the selector check (the div with id 5, even with
`forceUpdate = true`) is not inserted. -/
theorem c7_not_inserted_counterexample :
    5 ∉ (translateButton cfgEx dEx ⟨[], []⟩ 5 true).2.processedButtons := by
  decide

/-- C7 (amended): every node passed to `translateButton` that matches the
button selector — or that was already a member — is in the Processed-Set
after the call, regardless of `forceUpdate` and prior membership; a call
that returns at the selector check does not insert its argument. -/
theorem c7_processed_insert (cfg : Cfg) (d : Doc) (st : CState) (b : Nat) (f : Bool)
    (h : matchesAt d buttonSelector b = true ∨ b ∈ st.processedButtons) :
    b ∈ (translateButton cfg d st b f).2.processedButtons := by
  rcases h with hm | hmem
  · by_cases hp : b ∈ st.processedButtons
    · exact processed_mono_translateButton cfg d st b f hp
    · exact processed_add_translateButton cfg d st b f hm (Or.inr hp)
  · exact processed_mono_translateButton cfg d st b f hmem

theorem c7_processed_insert_witness :
    2 ∈ (translateButton cfgEx dEx ⟨[], []⟩ 2 false).2.processedButtons :=
  c7_processed_insert cfgEx dEx ⟨[], []⟩ 2 false (Or.inl (by decide))

/-- C8: the only DOM side effect of any operation — a single translation, a
sweep, the forced re-translation pass, or a full mutation-batch pass — is
text mutation of selector-matching elements: the parent map, the element
list shape, and every identity, nodeType, tag, class list and attribute set
are untouched, and any element whose text changed matches the
payment-button selector. -/
theorem c8_text_only_frame (cfg : Cfg) (d : Doc) (st : CState) (b : Nat) (f : Bool)
    (muts : List MutationRecord) (hN : (idsOf d).Nodup) :
    TextOnlyFrame d (translateButton cfg d st b f).1 ∧
    TextOnlyFrame d (init cfg d st).1 ∧
    TextOnlyFrame d (onFormAttributeChange cfg d st).1 ∧
    TextOnlyFrame d (processMutations cfg d st muts).1 :=
  ⟨frame_translateButton cfg d st b f hN,
   frame_foldTranslate cfg _ (d, st) hN,
   frame_foldTranslate cfg _ (d, st) hN,
   frame_processMutations cfg d st muts hN⟩

theorem c8_text_only_frame_witness :
    TextOnlyFrame dEx (init cfgEx dEx ⟨[], []⟩).1 :=
  (c8_text_only_frame cfgEx dEx ⟨[], []⟩ 2 false [] (by decide)).2.1

/-- C9: the pre-order context lookup tries, in this exact order, taking the
first that exists: the nearest `product-form` ancestor, then the nearest
`form.product__form` ancestor, then the nearest `form[data-is-preorder]`
ancestor, then the global document query for a marker-bearing
`product-form` anywhere in the document. -/
theorem c9_ancestor_order (d : Doc) (b : Nat) :
    (∀ pf, d.closest selProductForm b = some pf → productFormOf d b = some pf) ∧
    (d.closest selProductForm b = none →
      ∀ pf, d.closest selFormProductClass b = some pf → productFormOf d b = some pf) ∧
    (d.closest selProductForm b = none → d.closest selFormProductClass b = none →
      ∀ pf, d.closest selFormPreorder b = some pf → productFormOf d b = some pf) ∧
    (d.closest selProductForm b = none → d.closest selFormProductClass b = none →
      d.closest selFormPreorder b = none →
      productFormOf d b = d.queryFirst selProductFormPreorder) := by
  refine ⟨?_, ?_, ?_, ?_⟩
  · intro pf h
    unfold productFormOf
    rw [h]
  · intro h1 pf h
    unfold productFormOf
    rw [h1, h]
  · intro h1 h2 pf h
    unfold productFormOf
    rw [h1, h2, h]
  · intro h1 h2 h3
    unfold productFormOf
    rw [h1, h2, h3]

theorem c9_ancestor_order_witness :
    productFormOf dEx 2 = some 1 ∧ productFormOf dEx 4 = some 3 :=
  ⟨(c9_ancestor_order dEx 2).1 1 (by decide),
   (c9_ancestor_order dEx 4).2.1 (by decide) 3 (by decide)⟩

/-- C10 (counterexample): with `preorderButtonText` absent, translating the
pre-order button sets its text to the empty string — not to the string
"undefined" as the claim states (the `textContent` setter converts the
ECMAScript `undefined` to `null` and `null` to the empty string). -/
theorem c10_undefined_counterexample :
    optTextOf (translateButton cfgNoPre dEx ⟨[], []⟩ 2 false).1 2 = some "" ∧
    optTextOf (translateButton cfgNoPre dEx ⟨[], []⟩ 2 false).1 2 ≠
      some "undefined" := by
  refine ⟨rfl, ?_⟩
  intro h
  have h2 : ("" : String) = "undefined" := by
    have hEq : optTextOf (translateButton cfgNoPre dEx ⟨[], []⟩ 2 false).1 2 =
        some "" := rfl
    rw [hEq] at h
    injection h
  exact absurd h2 (by decide)

/-- C10 (amended): if the translation table omits `preorderButtonText`, then
translating a button whose governing form carries the pre-order marker sets
the button's text to the empty string — rather than to "undefined", leaving
it unchanged, or falling back to `buttonText`. -/
theorem c10_missing_preorder_empty (cfg : Cfg) (d : Doc) (st : CState) (b : Nat)
    (f : Bool) (hpre : cfg.preorderText = none)
    (hm : matchesAt d buttonSelector b = true)
    (hpo : isPreorderFor d b = true)
    (hcond : f = true ∨ b ∉ st.processedButtons) :
    optTextOf (translateButton cfg d st b f).1 b = some "" := by
  have hexp : expectedText cfg d b = "" := by
    unfold expectedText
    rw [hpo, hpre]
    rfl
  rw [translateButton_translates cfg d st b f hm hcond]
  rcases matchesAt_some hm with ⟨e, hge, _⟩
  unfold optTextOf
  rw [getById_setText_self _ hge]
  rw [hexp]
  rfl

theorem c10_missing_preorder_empty_witness :
    optTextOf (translateButton cfgNoPre dEx ⟨[], []⟩ 2 true).1 2 = some "" :=
  c10_missing_preorder_empty cfgNoPre dEx ⟨[], []⟩ 2 true rfl (by decide)
    (by decide) (Or.inl rfl)

end PBT
